import Mathlib

/-!
Shallow embedding of `.github/scripts/generate_index.py` from the
Omeka-S-Vocabularies repository, together with theorems settling the
specification claims about it.

Modelling conventions:
* A filesystem path is a list of components (`List String`); `pathStr sep parts`
  models Python's `str(Path)` for a given platform separator `sep`.
* The filesystem seen by one run is a `DirTree`: the components of `REPO_ROOT`'s
  absolute path, plus a finite map (association list) from root-relative paths
  to per-file data.  For each file the model records the outcome of
  `open` + `json.load` (`LoadResult`) and the integral part of the `st_mtime`
  timestamp in seconds.  A directory entry whose name happens to match `*.json`
  can be represented as an entry whose load outcome is an `ioError`
  (`IsADirectoryError` is an `OSError`), exactly as the script experiences it.
* JSON numbers are modelled as integers; no claim depends on float formatting.
* Python's `sorted` on `pathlib.Path` values compares the tuples of path
  components, component strings ordered by code points; `partsLe` is that
  comparison and the sort is modelled by `List.insertionSort` (a stable sort,
  like Python's).
-/

/-- A parsed JSON value, the result of a successful `json.load`. -/
inductive Json where
  | null : Json
  | bool (b : Bool) : Json
  | num (n : Int) : Json
  | str (s : String) : Json
  | arr (elems : List Json) : Json
  | obj (fields : List (String × Json)) : Json

/-- Outcome of `open(json_file, ...)` followed by `json.load(f)`:
an `IOError` while opening/reading, a `json.JSONDecodeError` while parsing,
or a parsed value. -/
inductive LoadResult where
  | ioError (e : String) : LoadResult
  | parseError (e : String) : LoadResult
  | ok (data : Json) : LoadResult

/-- What the filesystem holds at one path: the load outcome for its content
and its modification time (seconds since the epoch, `st_mtime`). -/
structure FileData where
  load : LoadResult
  mtime : Nat

/-- The filesystem state a run of the script observes: the components of
`REPO_ROOT`'s path and the entries found beneath it (keyed by root-relative
path components, in filesystem enumeration order). -/
structure DirTree where
  rootParts : List String
  entries : List (List String × FileData)

/-- `EXCLUDE_DIRS = {".git", ".github", ".venv", "venv"}`. -/
def EXCLUDE_DIRS : List String := [".git", ".github", ".venv", "venv"]

/-- `CSV_HEADERS` from the script, in source order. -/
def CSV_HEADERS : List String :=
  ["id", "filename", "url", "label", "namespaceUri", "prefix", "format",
   "comment", "last_modified"]

/-- `str(Path)` for a given platform separator: components joined by `sep`. -/
def pathStr (sep : String) (parts : List String) : String :=
  String.intercalate sep parts

/-- The final component of a path (`Path.name`); `""` for an empty path. -/
def lastName (parts : List String) : String :=
  (parts.getLast?).getD ""

/-- `should_exclude_path`: true iff some component of `path.parts` is in
`EXCLUDE_DIRS`. -/
def should_exclude_path (parts : List String) : Bool :=
  parts.any fun part => EXCLUDE_DIRS.contains part

/-- Whether `pat` is a suffix of `s`. -/
def listEndsWith (s pat : List Char) : Bool :=
  if s.length < pat.length then false
  else s.drop (s.length - pat.length) == pat

/-- Whether a name matches the glob `JSON_PATTERN = "*.json"`:
`*` matches any (possibly empty) run of characters within one component, so a
name matches exactly when it ends with `.json`. -/
def matchesJson (name : String) : Bool :=
  listEndsWith name.data ".json".data

/-- Python's `<` on two strings: lexicographic comparison of their character
sequences by code point. -/
def charsLt : List Char → List Char → Bool
  | [], [] => false
  | [], _ :: _ => true
  | _ :: _, [] => false
  | a :: as, b :: bs =>
    if a < b then true
    else if b < a then false
    else charsLt as bs

/-- `strLt a b` models Python's `a < b` on strings. -/
def strLt (a b : String) : Bool :=
  charsLt a.data b.data

/-- Python's comparison of two `pathlib` paths: lexicographic comparison of
their component tuples, components compared as strings (code-point order).
`partsLe a b` is `a <= b` in that order. -/
def partsLe : List String → List String → Bool
  | [], _ => true
  | _ :: _, [] => false
  | a :: as, b :: bs =>
    if strLt a b then true
    else if strLt b a then false
    else partsLe as bs

/-- `partsLe` as a relation, for use with `List.insertionSort`. -/
def pathLe (a b : List String) : Prop := partsLe a b = true

instance : DecidableRel pathLe := fun a b => by
  unfold pathLe; infer_instance

/-- `find_json_files(root)`: every entry whose name matches `*.json`, as a full
path (`root.rglob` yields root-prefixed paths), kept only when
`should_exclude_path` is false, then sorted (`sorted(json_files)`). -/
def find_json_files (t : DirTree) : List (List String) :=
  List.insertionSort pathLe
    ((t.entries.map fun e => t.rootParts ++ e.fst).filter
      fun p => matchesJson (lastName p) && !should_exclude_path p)

/-- `Path.with_suffix('')` applied to a name: drop the final `.ext` when the
last dot sits strictly inside the name (`0 < i < len(name) - 1` in `pathlib`);
otherwise the name has no suffix and is unchanged. -/
def lastDotIdx : List Char → Option Nat
  | [] => none
  | c :: cs =>
    match lastDotIdx cs with
    | some i => some (i + 1)
    | none => if c = '.' then some 0 else none

/-- The name with its `pathlib` suffix removed (`with_suffix('')` on the final
component). -/
def removeSuffix (name : String) : String :=
  match lastDotIdx name.data with
  | some i => if 0 < i ∧ i < name.length - 1 then String.mk (name.data.take i) else name
  | none => name

/-- `relative_path.with_suffix('')` on a whole relative path: the final
component loses its suffix, the rest is unchanged. -/
def stripLastSuffix (parts : List String) : List String :=
  parts.dropLast ++ [removeSuffix (lastName parts)]

/-- Gregorian date from days since 1970-01-01 (civil-from-days). -/
def civilFromDays (z0 : Nat) : Nat × Nat × Nat :=
  let z := z0 + 719468
  let era := z / 146097
  let doe := z % 146097
  let yoe := (doe - doe / 1460 + doe / 36524 - doe / 146096) / 365
  let y := yoe + era * 400
  let doy := doe - (365 * yoe + yoe / 4 - yoe / 100)
  let mp := (5 * doy + 2) / 153
  let d := doy - (153 * mp + 2) / 5 + 1
  let m := if mp < 10 then mp + 3 else mp - 9
  (if m ≤ 2 then y + 1 else y, m, d)

/-- Two-digit zero-padded decimal. -/
def pad2 (n : Nat) : String :=
  if n < 10 then "0" ++ toString n else toString n

/-- Four-digit zero-padded decimal. -/
def pad4 (n : Nat) : String :=
  if n < 10 then "000" ++ toString n
  else if n < 100 then "00" ++ toString n
  else if n < 1000 then "0" ++ toString n
  else toString n

/-- `datetime.fromtimestamp(t).isoformat()` for an integral timestamp `t`,
modelled in UTC: `YYYY-MM-DDTHH:MM:SS` (no fractional part since the modelled
`st_mtime` is integral). -/
def isoformat (t : Nat) : String :=
  let days := t / 86400
  let rem := t % 86400
  let ymd := civilFromDays days
  pad4 ymd.1 ++ "-" ++ pad2 ymd.2.1 ++ "-" ++ pad2 ymd.2.2 ++ "T" ++
    pad2 (rem / 3600) ++ ":" ++ pad2 (rem % 3600 / 60) ++ ":" ++ pad2 (rem % 60)

/-- `data.get(key, "")` on a parsed JSON object: the stored value when the key
is present, the empty string otherwise.  (On a real Python dict later duplicate
keys overwrite earlier ones during parsing; entries here are the final dict.) -/
def dictGet (fields : List (String × Json)) (key : String) : Json :=
  match fields.find? fun kv => kv.fst == key with
  | some kv => kv.snd
  | none => .str ""

/-- The `metadata` dict built by `extract_metadata` on success.  `id`,
`filename` and `last_modified` are always strings; the six optional fields
carry whatever JSON value `data.get` returned (default `""`). -/
structure Metadata where
  id : String
  filename : String
  url : Json
  label : Json
  namespaceUri : Json
  pfx : Json
  format : Json
  comment : Json
  last_modified : String

/-- Result of a call to `extract_metadata`:
`record` = returned a metadata dict; `skipped` = caught a `JSONDecodeError` or
`IOError`, printed the given warning and returned `None`; `raised` = an
exception escaped the function (not caught by its handler). -/
inductive ExtractResult where
  | record (m : Metadata) : ExtractResult
  | skipped (warning : String) : ExtractResult
  | raised (e : String) : ExtractResult

/-- The warning `extract_metadata` prints for a file it cannot read or parse. -/
def warnMsg (sep : String) (fullParts : List String) (e : String) : String :=
  "Warning: Could not read " ++ pathStr sep fullParts ++ ": " ++ e

/-- `extract_metadata(json_file)`: `json_file` is a full path produced by
`rglob` under the tree's root; `sep` is the platform's path separator, used by
`str()` on paths.  Opening a path with no entry raises `FileNotFoundError`,
an `IOError`, hence is caught like any read failure.  When `json.load` returns
a non-object, `data.get` raises `AttributeError`, which the handler
(`except (json.JSONDecodeError, IOError)`) does not catch. -/
def extract_metadata (t : DirTree) (sep : String) (json_file : List String) :
    ExtractResult :=
  let rel := json_file.drop t.rootParts.length
  match t.entries.find? fun en => en.fst == rel with
  | none => .skipped (warnMsg sep json_file "FileNotFoundError")
  | some en =>
    match en.snd.load with
    | .ioError e => .skipped (warnMsg sep json_file e)
    | .parseError e => .skipped (warnMsg sep json_file e)
    | .ok (.obj fields) =>
      .record
        { id := pathStr sep (stripLastSuffix rel)
          filename := lastName rel
          url := dictGet fields "url"
          label := dictGet fields "label"
          namespaceUri := dictGet fields "namespaceUri"
          pfx := dictGet fields "prefix"
          format := dictGet fields "format"
          comment := dictGet fields "comment"
          last_modified := isoformat en.snd.mtime }
    | .ok _ => .raised "AttributeError"

mutual

/-- Python `repr`/`str` for the JSON-derived container values (the `csv`
writer applies `str()` to non-string cells).  String escaping corner cases do
not arise in any claim. -/
def pyRepr : Json → String
  | .null => "None"
  | .bool b => if b then "True" else "False"
  | .num n => toString n
  | .str s => "\x27" ++ s ++ "\x27"
  | .arr elems => "[" ++ pyReprElems elems ++ "]"
  | .obj fields => "\x7b" ++ pyReprFields fields ++ "\x7d"

def pyReprElems : List Json → String
  | [] => ""
  | [v] => pyRepr v
  | v :: rest => pyRepr v ++ ", " ++ pyReprElems rest

def pyReprFields : List (String × Json) → String
  | [] => ""
  | [kv] => "\x27" ++ kv.fst ++ "\x27: " ++ pyRepr kv.snd
  | kv :: rest => "\x27" ++ kv.fst ++ "\x27: " ++ pyRepr kv.snd ++ ", " ++ pyReprFields rest

end

/-- How Python's `csv` writer renders one cell value: `None` becomes the empty
string, strings pass through, other values go through `str()`. -/
def cellStr : Json → String
  | .null => ""
  | .bool b => if b then "True" else "False"
  | .num n => toString n
  | .str s => s
  | .arr elems => pyRepr (.arr elems)
  | .obj fields => pyRepr (.obj fields)

/-- QUOTE_MINIMAL: a field is quoted iff it contains the delimiter, the quote
character, or a line-terminator character. -/
def needsQuote (s : String) : Bool :=
  s.data.any fun c => c == ',' || c == '"' || c == '\n' || c == '\r'

/-- Double every quote character (`s.replace('"', '""')` for this pattern). -/
def escQuotes : List Char → List Char
  | [] => []
  | c :: cs => if c = '"' then '"' :: '"' :: escQuotes cs else c :: escQuotes cs

/-- One CSV field, quoted (with doubled quote characters) when needed. -/
def csvField (s : String) : String :=
  if needsQuote s then "\"" ++ String.mk (escQuotes s.data) ++ "\"" else s

/-- One CSV row; the `csv` module's default line terminator is CRLF. -/
def csvLine (cells : List String) : String :=
  String.intercalate "," (cells.map csvField) ++ "\r\n"

/-- A whole CSV file from its rows. -/
def csvText (rows : List (List String)) : String :=
  String.join (rows.map csvLine)

/-- The cells `csv.DictWriter` writes for one metadata dict, in `CSV_HEADERS`
order. -/
def rowOf (m : Metadata) : List String :=
  [m.id, m.filename, cellStr m.url, cellStr m.label, cellStr m.namespaceUri,
   cellStr m.pfx, cellStr m.format, cellStr m.comment, m.last_modified]

/-- The per-file loop of `generate_index`: run `extract_metadata` on each
discovered path in order, collecting returned records and printed warnings;
an uncaught exception aborts the run. -/
def collectRecords (t : DirTree) (sep : String) :
    List (List String) → Except String (List Metadata × List String)
  | [] => .ok ([], [])
  | p :: rest =>
    match extract_metadata t sep p with
    | .raised e => .error e
    | .skipped w =>
      match collectRecords t sep rest with
      | .error e => .error e
      | .ok (records, warnings) => .ok (records, w :: warnings)
    | .record m =>
      match collectRecords t sep rest with
      | .error e => .error e
      | .ok (records, warnings) => .ok (m :: records, warnings)

/-- Observable outcome of a successful `generate_index` run: the notices and
warnings printed, the CSV rows (header first), and the serialized CSV text. -/
structure GenOutput where
  messages : List String
  rows : List (List String)
  text : String

/-- `generate_index(output_file)`: discover files, print the empty notice when
none were found, extract each file's metadata, and write the CSV (header row
followed by one row per successful record).  An uncaught exception from
`extract_metadata` terminates the process before the CSV is written. -/
def generate_index (t : DirTree) (sep : String) : Except String GenOutput :=
  let json_files := find_json_files t
  let notices := if json_files.isEmpty then ["No JSON files found to index."] else []
  match collectRecords t sep json_files with
  | .error e => .error e
  | .ok (records, warnings) =>
    let rows := CSV_HEADERS :: records.map rowOf
    .ok { messages := notices ++ warnings, rows := rows, text := csvText rows }

/-- Two trees that agree on everything a run can observe except modification
times: same root, same entries in the same order with the same load outcomes. -/
def SameContents (t1 t2 : DirTree) : Prop :=
  t1.rootParts = t2.rootParts ∧
  t1.entries.map (fun en => (en.fst, en.snd.load)) =
    t2.entries.map fun en => (en.fst, en.snd.load)

/-- Tree used by the C3 witness: one indexable file next to excluded ones. -/
def W3tree : DirTree :=
  { rootParts := ["home", "repo"]
    entries :=
      [ (["ok", "voc.json"], ⟨.ok (.obj []), 0⟩)
      , ([".git", "cfg.json"], ⟨.ok (.obj []), 0⟩)
      , (["sub", ".venv", "pkg.json"], ⟨.ok (.obj []), 0⟩) ] }

/-- Tree used by the C4 witness. -/
def W4tree : DirTree :=
  { rootParts := ["r"]
    entries :=
      [ (["b.json"], ⟨.ok (.obj []), 0⟩)
      , (["a.json"], ⟨.ok (.obj []), 0⟩) ] }

/-- The header line of the generated CSV. -/
def headerLine : String :=
  "id,filename,url,label,namespaceUri,prefix,format,comment,last_modified\r\n"

/-- Tree used by the C7 witness: entries exist but none matches `*.json`. -/
def W7tree : DirTree :=
  { rootParts := ["r"]
    entries := [ (["readme.txt"], ⟨.ioError "x", 0⟩), (["data.csv"], ⟨.ok .null, 0⟩) ] }

/-- Tree used by the C10 witness: the root lies inside a directory named
`venv`; the tree itself holds a perfectly ordinary vocabulary file. -/
def W10tree : DirTree :=
  { rootParts := ["home", "venv", "repo"]
    entries := [ (["a", "voc.json"], ⟨.ok (.obj [("label", .str "A")]), 0⟩) ] }

/-- Tree refuting C1: one file parses to a top-level JSON array, another to an
object whose `url` field holds a number. -/
def C1tree : DirTree :=
  { rootParts := ["r"]
    entries :=
      [ (["arr.json"], ⟨.ok (.arr []), 0⟩)
      , (["num.json"], ⟨.ok (.obj [("url", .num 7)]), 0⟩) ] }

/-- Tree used by the C1 witness. -/
def W1tree : DirTree :=
  { rootParts := ["r"]
    entries := [ (["a.json"], ⟨.ok (.obj [("label", .str "L")]), 3⟩) ] }

/-- Tree used by the C2 witness: a file of invalid JSON next to a valid one. -/
def W2tree : DirTree :=
  { rootParts := ["r"]
    entries :=
      [ (["bad.json"], ⟨.parseError "Expecting value: line 1 column 1 (char 0)", 0⟩)
      , (["good.json"], ⟨.ok (.obj []), 0⟩) ] }

/-- Tree refuting C5: a nested file, viewed from a platform whose native
separator is the backslash. -/
def C5tree : DirTree :=
  { rootParts := ["r"]
    entries := [ (["a", "b.json"], ⟨.ok (.obj []), 0⟩) ] }

/-- Tree used by the C5 witness. -/
def W5tree : DirTree :=
  { rootParts := ["r"]
    entries := [ (["a", "b.json"], ⟨.ok (.obj []), 0⟩) ] }

/-- Tree used by the C6 witness: one nested file whose object has only an
unrelated field. -/
def W6tree : DirTree :=
  { rootParts := ["r"]
    entries := [ (["sub", "voc.json"], ⟨.ok (.obj [("other", .num 1)]), 1700000000⟩) ] }

/-- Tree used by the C8 witness. -/
def W8tree : DirTree :=
  { rootParts := ["r"]
    entries := [ (["v.json"], ⟨.ok (.obj [("url", .str "http://x"), ("label", .str "X")]), 9⟩) ] }

/-- Equality of metadata records on every field except `last_modified`. -/
def MetaEqButMtime (m1 m2 : Metadata) : Prop :=
  m1.id = m2.id ∧ m1.filename = m2.filename ∧ m1.url = m2.url ∧
  m1.label = m2.label ∧ m1.namespaceUri = m2.namespaceUri ∧ m1.pfx = m2.pfx ∧
  m1.format = m2.format ∧ m1.comment = m2.comment

/-- Two extraction results that agree except possibly on the record's
`last_modified` field. -/
def ResultRel : ExtractResult → ExtractResult → Prop
  | .record m1, .record m2 => MetaEqButMtime m1 m2
  | .skipped w1, .skipped w2 => w1 = w2
  | .raised e1, .raised e2 => e1 = e2
  | _, _ => False

/-- Trees used by the C9 witness: identical contents, different mtimes. -/
def W9treeA : DirTree :=
  { rootParts := ["r"]
    entries := [ (["v.json"], ⟨.ok (.obj [("label", .str "X")]), 100⟩) ] }

/-- Same contents as `W9treeA` with a different modification time. -/
def W9treeB : DirTree :=
  { rootParts := ["r"]
    entries := [ (["v.json"], ⟨.ok (.obj [("label", .str "X")]), 200⟩) ] }

theorem charsLt_trichotomy (a b : List Char) :
    charsLt a b = true ∨ a = b ∨ charsLt b a = true := by
  induction a generalizing b with
  | nil => cases b with
    | nil => right; left; rfl
    | cons y bs => left; rfl
  | cons x as ih =>
    cases b with
    | nil => right; right; rfl
    | cons y bs =>
      rcases lt_trichotomy x y with h | h | h
      · left; simp [charsLt, h]
      · subst h
        rcases ih bs with h2 | h2 | h2
        · left; simp [charsLt, lt_self_iff_false, h2]
        · right; left; rw [h2]
        · right; right; simp [charsLt, lt_self_iff_false, h2]
      · right; right; simp [charsLt, h]

theorem charsLt_trans {a b c : List Char} (h1 : charsLt a b = true)
    (h2 : charsLt b c = true) : charsLt a c = true := by
  induction a generalizing b c with
  | nil =>
    cases c with
    | nil =>
      cases b with
      | nil => exact h2
      | cons y bs => simp [charsLt] at h2
    | cons z cs => rfl
  | cons x as ih =>
    cases b with
    | nil => simp [charsLt] at h1
    | cons y bs =>
      cases c with
      | nil => simp [charsLt] at h2
      | cons z cs =>
        by_cases hxy : x < y
        · by_cases hyz : y < z
          · simp [charsLt, lt_trans hxy hyz]
          · by_cases hzy : z < y
            · simp [charsLt, hyz, hzy] at h2
            · have hyz2 : y = z := le_antisymm (not_lt.mp hzy) (not_lt.mp hyz)
              subst hyz2
              simp [charsLt, hxy]
        · by_cases hyx : y < x
          · simp [charsLt, hxy, hyx] at h1
          · have hxy2 : x = y := le_antisymm (not_lt.mp hyx) (not_lt.mp hxy)
            subst hxy2
            simp only [charsLt, lt_self_iff_false, if_false] at h1
            by_cases hyz : x < z
            · simp [charsLt, hyz]
            · by_cases hzy : z < x
              · simp [charsLt, hyz, hzy] at h2
              · have hxz : x = z := le_antisymm (not_lt.mp hzy) (not_lt.mp hyz)
                subst hxz
                simp only [charsLt, lt_self_iff_false, if_false] at h2 ⊢
                exact ih h1 h2

theorem strLt_trichotomy (a b : String) :
    strLt a b = true ∨ a = b ∨ strLt b a = true := by
  rcases charsLt_trichotomy a.data b.data with h | h | h
  · left; exact h
  · right; left; exact congrArg String.mk h
  · right; right; exact h

theorem charsLt_irrefl (l : List Char) : charsLt l l = false := by
  induction l with
  | nil => rfl
  | cons x xs ih => simp only [charsLt, lt_self_iff_false, if_false]; exact ih

theorem strLt_irrefl (a : String) : strLt a a = false :=
  charsLt_irrefl a.data

theorem strLt_trans {a b c : String} (h1 : strLt a b = true)
    (h2 : strLt b c = true) : strLt a c = true :=
  charsLt_trans h1 h2

theorem strLt_conn {a b : String} (h1 : strLt a b = false) (h2 : strLt b a = false) :
    a = b := by
  rcases strLt_trichotomy a b with h | h | h
  · rw [h1] at h; cases h
  · exact h
  · rw [h2] at h; cases h

theorem partsLe_total (a b : List String) : partsLe a b = true ∨ partsLe b a = true := by
  induction a generalizing b with
  | nil => left; rfl
  | cons x as ih =>
    cases b with
    | nil => right; rfl
    | cons y bs =>
      rcases strLt_trichotomy x y with h | h | h
      · left; simp [partsLe, h]
      · subst h
        rcases ih bs with h2 | h2
        · left; simp [partsLe, strLt_irrefl, h2]
        · right; simp [partsLe, strLt_irrefl, h2]
      · right; simp [partsLe, h]

theorem partsLe_trans {a b c : List String} (h1 : partsLe a b = true)
    (h2 : partsLe b c = true) : partsLe a c = true := by
  induction a generalizing b c with
  | nil => rfl
  | cons x as ih =>
    cases b with
    | nil => simp [partsLe] at h1
    | cons y bs =>
      cases c with
      | nil => simp [partsLe] at h2
      | cons z cs =>
        by_cases hxy : strLt x y = true
        · by_cases hyz : strLt y z = true
          · simp [partsLe, strLt_trans hxy hyz]
          · by_cases hzy : strLt z y = true
            · simp [partsLe, hyz, hzy] at h2
            · have hyz2 : y = z :=
                strLt_conn (Bool.eq_false_iff.mpr hyz) (Bool.eq_false_iff.mpr hzy)
              subst hyz2
              simp [partsLe, hxy]
        · by_cases hyx : strLt y x = true
          · simp [partsLe, hxy, hyx] at h1
          · have hxy2 : x = y :=
              strLt_conn (Bool.eq_false_iff.mpr hxy) (Bool.eq_false_iff.mpr hyx)
            subst hxy2
            simp only [partsLe, strLt_irrefl, if_false] at h1
            by_cases hyz : strLt x z = true
            · simp [partsLe, hyz]
            · by_cases hzy : strLt z x = true
              · simp [partsLe, hyz, hzy] at h2
              · have hxz : x = z :=
                  strLt_conn (Bool.eq_false_iff.mpr hyz) (Bool.eq_false_iff.mpr hzy)
                subst hxz
                simp only [partsLe, strLt_irrefl, if_false] at h2 ⊢
                exact ih h1 h2

theorem should_exclude_of_mem {parts : List String} {c : String}
    (hc : c ∈ parts) (hex : c ∈ EXCLUDE_DIRS) : should_exclude_path parts = true := by
  unfold should_exclude_path
  rw [List.any_eq_true]
  exact ⟨c, hc, List.elem_iff.mpr hex⟩

theorem not_excluded_of_mem_find {t : DirTree} {p : List String}
    (hp : p ∈ find_json_files t) : should_exclude_path p = false := by
  have hmem := (List.mem_insertionSort pathLe).mp hp
  have hf := List.of_mem_filter hmem
  rcases (Bool.and_eq_true _ _).mp hf with ⟨_, h2⟩
  simpa using h2

/-- C3: a path with an excluded directory name (`.git`, `.github`, `.venv`,
`venv`) among any of its components — at any depth — never appears in the
result of `find_json_files`. -/
theorem C3_excluded_components_never_discovered (t : DirTree) (p : List String)
    (hp : p ∈ find_json_files t) : ∀ c ∈ p, c ∉ EXCLUDE_DIRS := by
  intro c hc hex
  have hno := not_excluded_of_mem_find hp
  rw [should_exclude_of_mem hc hex] at hno
  cases hno

theorem C3_witness :
    ["home", "repo", "ok", "voc.json"] ∈ find_json_files W3tree ∧
    ∀ c ∈ ["home", "repo", "ok", "voc.json"], c ∉ EXCLUDE_DIRS := by
  have hp : ["home", "repo", "ok", "voc.json"] ∈ find_json_files W3tree := by decide
  exact ⟨hp, C3_excluded_components_never_discovered W3tree _ hp⟩

/-- C4: `find_json_files` returns its paths sorted ascending in the
lexicographic order Python's `sorted` uses on `pathlib` paths (component
tuples, components by code point), and equal trees give identical output. -/
theorem C4_sorted_and_deterministic (t : DirTree) :
    List.Sorted pathLe (find_json_files t) ∧
    ∀ t2 : DirTree, t2 = t → find_json_files t2 = find_json_files t := by
  refine ⟨@List.sorted_insertionSort _ pathLe _ ⟨partsLe_total⟩
    ⟨fun _ _ _ h1 h2 => partsLe_trans h1 h2⟩ _, ?_⟩
  intro t2 h
  rw [h]

theorem C4_witness :
    List.Sorted pathLe (find_json_files W4tree) ∧
    find_json_files W4tree = find_json_files W4tree :=
  ⟨(C4_sorted_and_deterministic W4tree).1,
   (C4_sorted_and_deterministic W4tree).2 W4tree rfl⟩

theorem generate_header_only {t : DirTree} (sep : String)
    (h : find_json_files t = []) :
    generate_index t sep =
      .ok { messages := ["No JSON files found to index."]
            rows := [CSV_HEADERS]
            text := headerLine } := by
  unfold generate_index
  rw [h]
  rfl

/-- C7: when no files are discovered, `generate_index` prints the
informational notice and still writes a CSV consisting of the header row
only; the run completes normally (no error). -/
theorem C7_zero_files_header_only (t : DirTree) (sep : String)
    (h : find_json_files t = []) :
    generate_index t sep =
      .ok { messages := ["No JSON files found to index."]
            rows := [CSV_HEADERS]
            text := headerLine } :=
  generate_header_only sep h

theorem C7_witness :
    generate_index W7tree "/" =
      .ok { messages := ["No JSON files found to index."]
            rows := [CSV_HEADERS]
            text := headerLine } :=
  C7_zero_files_header_only W7tree "/" (by decide)

/-- C10: if any component of the repository root's own absolute path is an
excluded name, every discovered path inherits it, so `find_json_files`
returns nothing and `generate_index` writes a header-only CSV whatever the
tree holds. -/
theorem C10_excluded_ancestor_empties_index (t : DirTree) (sep : String)
    (c : String) (hc : c ∈ t.rootParts) (hex : c ∈ EXCLUDE_DIRS) :
    find_json_files t = [] ∧
    generate_index t sep =
      .ok { messages := ["No JSON files found to index."]
            rows := [CSV_HEADERS]
            text := headerLine } := by
  have hfind : find_json_files t = [] := by
    unfold find_json_files
    have hfil :
        (t.entries.map fun e => t.rootParts ++ e.fst).filter
          (fun p => matchesJson (lastName p) && !should_exclude_path p) = [] := by
      rw [List.filter_eq_nil_iff]
      intro p hp
      rcases List.mem_map.mp hp with ⟨e, _, hpe⟩
      have hcp : c ∈ p := hpe ▸ List.mem_append_left _ hc
      rw [should_exclude_of_mem hcp hex]
      simp
    rw [hfil]
    rfl
  exact ⟨hfind, generate_header_only sep hfind⟩

theorem C10_witness :
    find_json_files W10tree = [] ∧
    generate_index W10tree "/" =
      .ok { messages := ["No JSON files found to index."]
            rows := [CSV_HEADERS]
            text := headerLine } :=
  C10_excluded_ancestor_empties_index W10tree "/" "venv" (by decide) (by decide)

theorem extract_skips {t : DirTree} {sep : String} {json_file : List String}
    {en : List String × FileData} {e : String}
    (hfind : t.entries.find? (fun x => x.fst == json_file.drop t.rootParts.length) =
      some en)
    (hload : en.snd.load = .ioError e ∨ en.snd.load = .parseError e) :
    extract_metadata t sep json_file = .skipped (warnMsg sep json_file e) := by
  rcases hload with hl | hl <;>
    (unfold extract_metadata; simp only []; rw [hfind]; simp only []; rw [hl])

theorem extract_record {t : DirTree} {sep : String} {json_file : List String}
    {en : List String × FileData} {fields : List (String × Json)}
    (hfind : t.entries.find? (fun x => x.fst == json_file.drop t.rootParts.length) =
      some en)
    (hload : en.snd.load = .ok (.obj fields)) :
    extract_metadata t sep json_file = .record
      { id := pathStr sep (stripLastSuffix (json_file.drop t.rootParts.length))
        filename := lastName (json_file.drop t.rootParts.length)
        url := dictGet fields "url", label := dictGet fields "label"
        namespaceUri := dictGet fields "namespaceUri", pfx := dictGet fields "prefix"
        format := dictGet fields "format", comment := dictGet fields "comment"
        last_modified := isoformat en.snd.mtime } := by
  unfold extract_metadata
  simp only []
  rw [hfind]
  simp only []
  rw [hload]

theorem extract_raises {t : DirTree} {sep : String} {json_file : List String}
    {en : List String × FileData}
    (hfind : t.entries.find? (fun x => x.fst == json_file.drop t.rootParts.length) =
      some en)
    (d : Json) (hload : en.snd.load = .ok d) (hno : ∀ fields, d ≠ .obj fields) :
    extract_metadata t sep json_file = .raised "AttributeError" := by
  unfold extract_metadata
  simp only []
  rw [hfind]
  simp only []
  rw [hload]
  cases d with
  | null => rfl
  | bool b => rfl
  | num n => rfl
  | str s => rfl
  | arr elems => rfl
  | obj fields => exact absurd rfl (hno fields)

theorem dictGet_of_absent {fields : List (String × Json)} {key : String}
    (h : ∀ kv ∈ fields, kv.fst ≠ key) : dictGet fields key = .str "" := by
  unfold dictGet
  have hnone : fields.find? (fun kv => kv.fst == key) = none := by
    rw [List.find?_eq_none]
    intro kv hkv
    simp only [beq_iff_eq]
    exact h kv hkv
  rw [hnone]

/-- C1 fails on the code: a file that parses to a top-level JSON array makes
`extract_metadata` raise `AttributeError` (`data.get` on a non-dict; the
handler only catches `JSONDecodeError` and `IOError`), and a present `url`
field of unexpected shape is passed through unchanged instead of being
defaulted to the empty string. -/
theorem C1_counterexample :
    extract_metadata C1tree "/" ["r", "arr.json"] = .raised "AttributeError" ∧
    extract_metadata C1tree "/" ["r", "num.json"] =
      .record { id := "num", filename := "num.json", url := .num 7, label := .str ""
                namespaceUri := .str "", pfx := .str "", format := .str ""
                comment := .str "", last_modified := isoformat 0 } ∧
    Json.num 7 ≠ Json.str "" :=
  ⟨rfl, rfl, fun h => Json.noConfusion h⟩

/-- C1 (amended): for every file that is opened and parsed as JSON with a
top-level object, `extract_metadata` builds a record whose six optional
fields hold exactly `data.get(field, "")` — the stored value when the key is
present (whatever its shape), the empty string when absent — and a missing
field never causes a failure; when the parsed top-level value is not an
object, `extract_metadata` instead raises an uncaught `AttributeError`. -/
theorem C1_amended_object_fields (t : DirTree) (sep : String)
    (json_file : List String) (en : List String × FileData)
    (hfind : t.entries.find? (fun x => x.fst == json_file.drop t.rootParts.length) =
      some en) :
    (∀ fields, en.snd.load = .ok (.obj fields) →
      ∃ m : Metadata, extract_metadata t sep json_file = .record m ∧
        m.url = dictGet fields "url" ∧ m.label = dictGet fields "label" ∧
        m.namespaceUri = dictGet fields "namespaceUri" ∧
        m.pfx = dictGet fields "prefix" ∧ m.format = dictGet fields "format" ∧
        m.comment = dictGet fields "comment" ∧
        ∀ key, (∀ kv ∈ fields, kv.fst ≠ key) → dictGet fields key = .str "") ∧
    (∀ d, en.snd.load = .ok d → (∀ fields, d ≠ .obj fields) →
      extract_metadata t sep json_file = .raised "AttributeError") := by
  constructor
  · intro fields hload
    exact ⟨_, extract_record hfind hload, rfl, rfl, rfl, rfl, rfl, rfl,
      fun key hk => dictGet_of_absent hk⟩
  · intro d hload hno
    exact extract_raises hfind d hload hno

theorem C1_witness :
    ∃ m : Metadata, extract_metadata W1tree "/" ["r", "a.json"] = .record m ∧
      m.url = dictGet [("label", Json.str "L")] "url" ∧
      m.label = dictGet [("label", Json.str "L")] "label" ∧
      m.namespaceUri = dictGet [("label", Json.str "L")] "namespaceUri" ∧
      m.pfx = dictGet [("label", Json.str "L")] "prefix" ∧
      m.format = dictGet [("label", Json.str "L")] "format" ∧
      m.comment = dictGet [("label", Json.str "L")] "comment" ∧
      ∀ key, (∀ kv ∈ [("label", Json.str "L")], kv.fst ≠ key) →
        dictGet [("label", Json.str "L")] key = .str "" :=
  (C1_amended_object_fields W1tree "/" ["r", "a.json"]
      (["a.json"], ⟨.ok (.obj [("label", .str "L")]), 3⟩) rfl).1
    [("label", .str "L")] rfl

/-- C2: a file whose open/read raises `IOError` or whose content fails JSON
parsing never lets the exception reach the caller: `extract_metadata` prints
a warning that names the path and the underlying error and returns `None`
(no record), and the scan continues — the remaining files contribute exactly
the records and warnings they would contribute anyway. -/
theorem C2_failed_file_skipped_scan_continues (t : DirTree) (sep : String)
    (json_file : List String) (en : List String × FileData) (e : String)
    (hfind : t.entries.find? (fun x => x.fst == json_file.drop t.rootParts.length) =
      some en)
    (hload : en.snd.load = .ioError e ∨ en.snd.load = .parseError e) :
    extract_metadata t sep json_file = .skipped (warnMsg sep json_file e) ∧
    warnMsg sep json_file e =
      "Warning: Could not read " ++ pathStr sep json_file ++ ": " ++ e ∧
    ∀ rest records warnings, collectRecords t sep rest = .ok (records, warnings) →
      collectRecords t sep (json_file :: rest) =
        .ok (records, warnMsg sep json_file e :: warnings) := by
  have hskip := @extract_skips t sep json_file en e hfind hload
  refine ⟨hskip, rfl, ?_⟩
  intro rest records warnings hrest
  unfold collectRecords
  rw [hskip, hrest]

theorem C2_witness :
    extract_metadata W2tree "/" ["r", "bad.json"] =
      .skipped (warnMsg "/" ["r", "bad.json"] "Expecting value: line 1 column 1 (char 0)") ∧
    collectRecords W2tree "/" [["r", "bad.json"], ["r", "good.json"]] =
      .ok ([{ id := "good", filename := "good.json", url := .str "", label := .str ""
              namespaceUri := .str "", pfx := .str "", format := .str ""
              comment := .str "", last_modified := isoformat 0 }],
        [warnMsg "/" ["r", "bad.json"] "Expecting value: line 1 column 1 (char 0)"]) := by
  have h := C2_failed_file_skipped_scan_continues W2tree "/" ["r", "bad.json"]
    (["bad.json"], ⟨.parseError "Expecting value: line 1 column 1 (char 0)", 0⟩)
    "Expecting value: line 1 column 1 (char 0)" rfl (Or.inr rfl)
  exact ⟨h.1, h.2.2 [["r", "good.json"]] _ _ rfl⟩

/-- C5 fails on the code: `str(relative_path.with_suffix(''))` uses the
platform's native separator, so with a Windows-style separator the `id` is
backslash-joined, not forward-slash-joined. -/
theorem C5_counterexample :
    extract_metadata C5tree "\\" ["r", "a", "b.json"] =
      .record { id := "a\\b", filename := "b.json", url := .str "", label := .str ""
                namespaceUri := .str "", pfx := .str "", format := .str ""
                comment := .str "", last_modified := isoformat 0 } ∧
    ("a\\b" : String) ≠ "a/b" :=
  ⟨rfl, by decide⟩

/-- C5 (amended): the record's `id` is the path relative to the repository
root with the final suffix removed, joined with the platform's native
separator — forward slashes exactly on platforms whose separator is `/`
(POSIX), backslashes on Windows. -/
theorem C5_amended_id_native_separator (t : DirTree) (sep : String)
    (json_file : List String) (en : List String × FileData)
    (fields : List (String × Json))
    (hfind : t.entries.find? (fun x => x.fst == json_file.drop t.rootParts.length) =
      some en)
    (hload : en.snd.load = .ok (.obj fields)) :
    ∃ m : Metadata, extract_metadata t sep json_file = .record m ∧
      m.id = pathStr sep (stripLastSuffix (json_file.drop t.rootParts.length)) :=
  ⟨_, extract_record hfind hload, rfl⟩

theorem C5_witness :
    ∃ m : Metadata, extract_metadata W5tree "/" ["r", "a", "b.json"] = .record m ∧
      m.id = pathStr "/" (stripLastSuffix ["a", "b.json"]) :=
  C5_amended_id_native_separator W5tree "/" ["r", "a", "b.json"]
    (["a", "b.json"], ⟨.ok (.obj []), 0⟩) [] rfl rfl

/-- C6: a JSON file parsing to an object holding none of the six optional
fields yields a record with all six string fields empty, while `id` (from the
root-relative path, suffix removed), `filename` (the base name) and
`last_modified` (the ISO-8601 rendering of the modification time read at scan
time) are populated. -/
theorem C6_missing_fields_all_empty (t : DirTree) (sep : String)
    (json_file : List String) (en : List String × FileData)
    (fields : List (String × Json))
    (hfind : t.entries.find? (fun x => x.fst == json_file.drop t.rootParts.length) =
      some en)
    (hload : en.snd.load = .ok (.obj fields))
    (habsent : ∀ kv ∈ fields,
      kv.fst ∉ (["url", "label", "namespaceUri", "prefix", "format", "comment"] :
        List String)) :
    extract_metadata t sep json_file = .record
      { id := pathStr sep (stripLastSuffix (json_file.drop t.rootParts.length))
        filename := lastName (json_file.drop t.rootParts.length)
        url := .str "", label := .str "", namespaceUri := .str "", pfx := .str ""
        format := .str "", comment := .str ""
        last_modified := isoformat en.snd.mtime } := by
  have h6 : ∀ key ∈ (["url", "label", "namespaceUri", "prefix", "format",
      "comment"] : List String), dictGet fields key = .str "" := by
    intro key hkey
    apply dictGet_of_absent
    intro kv hkv heq
    exact habsent kv hkv (by rw [heq]; exact hkey)
  rw [extract_record hfind hload,
    h6 "url" (by simp), h6 "label" (by simp), h6 "namespaceUri" (by simp),
    h6 "prefix" (by simp), h6 "format" (by simp), h6 "comment" (by simp)]

theorem C6_witness :
    extract_metadata W6tree "/" ["r", "sub", "voc.json"] = .record
      { id := pathStr "/" (stripLastSuffix ["sub", "voc.json"])
        filename := lastName ["sub", "voc.json"]
        url := .str "", label := .str "", namespaceUri := .str "", pfx := .str ""
        format := .str "", comment := .str ""
        last_modified := isoformat 1700000000 } :=
  C6_missing_fields_all_empty W6tree "/" ["r", "sub", "voc.json"]
    (["sub", "voc.json"], ⟨.ok (.obj [("other", .num 1)]), 1700000000⟩)
    [("other", .num 1)] rfl rfl (by decide)

/-- C8: every successful run writes a CSV whose first row is exactly the fixed
header `id, filename, url, label, namespaceUri, prefix, format, comment,
last_modified`, and every data row lists its record's values in exactly that
column order; neither depends on the run or the input. -/
theorem C8_fixed_header_and_column_order (t : DirTree) (sep : String)
    (out : GenOutput) (h : generate_index t sep = .ok out) :
    out.rows.head? = some CSV_HEADERS ∧
    CSV_HEADERS = ["id", "filename", "url", "label", "namespaceUri", "prefix",
      "format", "comment", "last_modified"] ∧
    ∀ row ∈ out.rows.tail, ∃ m : Metadata,
      row = [m.id, m.filename, cellStr m.url, cellStr m.label,
        cellStr m.namespaceUri, cellStr m.pfx, cellStr m.format,
        cellStr m.comment, m.last_modified] := by
  unfold generate_index at h
  simp only [] at h
  cases hcr : collectRecords t sep (find_json_files t) with
  | error e =>
    rw [hcr] at h
    cases h
  | ok pr =>
    obtain ⟨records, warnings⟩ := pr
    rw [hcr] at h
    injection h with h2
    subst h2
    refine ⟨rfl, rfl, ?_⟩
    intro row hrow
    simp only [List.tail_cons] at hrow
    rcases List.mem_map.mp hrow with ⟨m, _, hm⟩
    exact ⟨m, hm.symm⟩

theorem C8_witness :
    (GenOutput.mk []
      [CSV_HEADERS, ["v", "v.json", "http://x", "X", "", "", "", "", isoformat 9]]
      ("id,filename,url,label,namespaceUri,prefix,format,comment,last_modified\r\n" ++
        "v,v.json,http://x,X,,,,," ++ isoformat 9 ++ "\r\n")).rows.head? =
      some CSV_HEADERS ∧
    CSV_HEADERS = ["id", "filename", "url", "label", "namespaceUri", "prefix",
      "format", "comment", "last_modified"] ∧
    ∀ row ∈ (GenOutput.mk []
      [CSV_HEADERS, ["v", "v.json", "http://x", "X", "", "", "", "", isoformat 9]]
      ("id,filename,url,label,namespaceUri,prefix,format,comment,last_modified\r\n" ++
        "v,v.json,http://x,X,,,,," ++ isoformat 9 ++ "\r\n")).rows.tail,
      ∃ m : Metadata,
        row = [m.id, m.filename, cellStr m.url, cellStr m.label,
          cellStr m.namespaceUri, cellStr m.pfx, cellStr m.format,
          cellStr m.comment, m.last_modified] :=
  C8_fixed_header_and_column_order W8tree "/" _ rfl

theorem map_fst_of_sameContents {t1 t2 : DirTree} (h : SameContents t1 t2) :
    t1.entries.map Prod.fst = t2.entries.map Prod.fst := by
  have hpair : ∀ l : List (List String × FileData),
      (l.map fun en => (en.fst, en.snd.load)).map Prod.fst = l.map Prod.fst := by
    intro l
    rw [List.map_map]
    rfl
  calc t1.entries.map Prod.fst
      = (t1.entries.map fun en => (en.fst, en.snd.load)).map Prod.fst :=
        (hpair t1.entries).symm
    _ = (t2.entries.map fun en => (en.fst, en.snd.load)).map Prod.fst := by rw [h.2]
    _ = t2.entries.map Prod.fst := hpair t2.entries

theorem find_eq_of_sameContents {t1 t2 : DirTree} (h : SameContents t1 t2) :
    find_json_files t1 = find_json_files t2 := by
  unfold find_json_files
  have hmap : t1.entries.map (fun e => t1.rootParts ++ e.fst) =
      t2.entries.map fun e => t2.rootParts ++ e.fst := by
    have e1 : t1.entries.map (fun e => t1.rootParts ++ e.fst) =
        (t1.entries.map Prod.fst).map fun p => t1.rootParts ++ p := by
      rw [List.map_map]
      rfl
    have e2 : t2.entries.map (fun e => t2.rootParts ++ e.fst) =
        (t2.entries.map Prod.fst).map fun p => t2.rootParts ++ p := by
      rw [List.map_map]
      rfl
    rw [e1, e2, map_fst_of_sameContents h, h.1]
  rw [hmap]

theorem find?_load_rel {l1 l2 : List (List String × FileData)}
    (h : l1.map (fun en => (en.fst, en.snd.load)) =
      l2.map fun en => (en.fst, en.snd.load))
    (rel : List String) :
    (l1.find? (fun en => en.fst == rel) = none ∧
      l2.find? (fun en => en.fst == rel) = none) ∨
    ∃ en1 en2, l1.find? (fun en => en.fst == rel) = some en1 ∧
      l2.find? (fun en => en.fst == rel) = some en2 ∧
      en1.fst = en2.fst ∧ en1.snd.load = en2.snd.load := by
  induction l1 generalizing l2 with
  | nil =>
    cases l2 with
    | nil => left; exact ⟨rfl, rfl⟩
    | cons b bs => simp at h
  | cons a as ih =>
    cases l2 with
    | nil => simp at h
    | cons b bs =>
      simp only [List.map_cons, List.cons.injEq, Prod.mk.injEq] at h
      obtain ⟨⟨hfst, hload⟩, htail⟩ := h
      by_cases hb : (a.fst == rel) = true
      · right
        refine ⟨a, b, List.find?_cons_of_pos _ hb, List.find?_cons_of_pos _ ?_,
          hfst, hload⟩
        rw [← hfst]
        exact hb
      · have hb2 : ¬(b.fst == rel) = true := by
          rw [← hfst]
          exact hb
        rw [@List.find?_cons_of_neg _ (fun en => en.fst == rel) a as hb,
          @List.find?_cons_of_neg _ (fun en => en.fst == rel) b bs hb2]
        exact ih htail

theorem extract_rel_of_sameContents {t1 t2 : DirTree} (h : SameContents t1 t2)
    (sep : String) (json_file : List String) :
    ResultRel (extract_metadata t1 sep json_file)
      (extract_metadata t2 sep json_file) := by
  unfold extract_metadata
  simp only []
  rw [h.1]
  rcases find?_load_rel h.2 (json_file.drop t2.rootParts.length) with
    ⟨hn1, hn2⟩ | ⟨en1, en2, hs1, hs2, hfst, hload⟩
  · rw [hn1, hn2]
    exact rfl
  · rcases en1 with ⟨p1, fd1⟩
    rcases en2 with ⟨p2, fd2⟩
    simp only at hload
    simp only [hs1, hs2]
    rw [← hload]
    cases fd1.load with
    | ioError e => exact rfl
    | parseError e => exact rfl
    | ok d =>
      cases d with
      | null => exact rfl
      | bool b => exact rfl
      | num n => exact rfl
      | str s => exact rfl
      | arr elems => exact rfl
      | obj fields => exact ⟨rfl, rfl, rfl, rfl, rfl, rfl, rfl, rfl⟩

theorem collect_rel_of_sameContents {t1 t2 : DirTree} (h : SameContents t1 t2)
    (sep : String) (paths : List (List String)) :
    (∃ e, collectRecords t1 sep paths = .error e ∧
      collectRecords t2 sep paths = .error e) ∨
    ∃ r1 r2 w, collectRecords t1 sep paths = .ok (r1, w) ∧
      collectRecords t2 sep paths = .ok (r2, w) ∧
      List.Forall₂ MetaEqButMtime r1 r2 := by
  induction paths with
  | nil => right; exact ⟨[], [], [], rfl, rfl, List.Forall₂.nil⟩
  | cons p rest ih =>
    have hrel := extract_rel_of_sameContents h sep p
    unfold collectRecords
    cases hx1 : extract_metadata t1 sep p with
    | raised e1 =>
      cases hx2 : extract_metadata t2 sep p with
      | raised e2 =>
        rw [hx1, hx2] at hrel
        simp only [ResultRel] at hrel
        subst hrel
        left
        exact ⟨e1, rfl, rfl⟩
      | record m2 => rw [hx1, hx2] at hrel; simp only [ResultRel] at hrel
      | skipped w2 => rw [hx1, hx2] at hrel; simp only [ResultRel] at hrel
    | skipped w1 =>
      cases hx2 : extract_metadata t2 sep p with
      | skipped w2 =>
        rw [hx1, hx2] at hrel
        simp only [ResultRel] at hrel
        subst hrel
        rcases ih with ⟨e, he1, he2⟩ | ⟨r1, r2, w, ho1, ho2, hf⟩
        · left
          rw [he1, he2]
          exact ⟨e, rfl, rfl⟩
        · right
          rw [ho1, ho2]
          exact ⟨r1, r2, w1 :: w, rfl, rfl, hf⟩
      | record m2 => rw [hx1, hx2] at hrel; simp only [ResultRel] at hrel
      | raised e2 => rw [hx1, hx2] at hrel; simp only [ResultRel] at hrel
    | record m1 =>
      cases hx2 : extract_metadata t2 sep p with
      | record m2 =>
        rw [hx1, hx2] at hrel
        simp only [ResultRel] at hrel
        rcases ih with ⟨e, he1, he2⟩ | ⟨r1, r2, w, ho1, ho2, hf⟩
        · left
          rw [he1, he2]
          exact ⟨e, rfl, rfl⟩
        · right
          rw [ho1, ho2]
          exact ⟨m1 :: r1, m2 :: r2, w, rfl, rfl, List.Forall₂.cons hrel hf⟩
      | skipped w2 => rw [hx1, hx2] at hrel; simp only [ResultRel] at hrel
      | raised e2 => rw [hx1, hx2] at hrel; simp only [ResultRel] at hrel

theorem rows_take8_eq {r1 r2 : List Metadata}
    (h : List.Forall₂ MetaEqButMtime r1 r2) :
    (r1.map rowOf).map (fun r => r.take 8) =
      (r2.map rowOf).map fun r => r.take 8 := by
  induction h with
  | nil => rfl
  | cons hab htail ih =>
    simp only [List.map_cons]
    rw [ih]
    obtain ⟨h1, h2, h3, h4, h5, h6, h7, h8⟩ := hab
    congr 1
    simp [rowOf, h1, h2, h3, h4, h5, h6, h7, h8]

theorem entries_ext {l1 l2 : List (List String × FileData)}
    (h1 : l1.map (fun en => (en.fst, en.snd.load)) =
      l2.map fun en => (en.fst, en.snd.load))
    (h2 : l1.map (fun en => en.snd.mtime) = l2.map fun en => en.snd.mtime) :
    l1 = l2 := by
  induction l1 generalizing l2 with
  | nil =>
    cases l2 with
    | nil => rfl
    | cons b bs => simp at h1
  | cons a as ih =>
    cases l2 with
    | nil => simp at h1
    | cons b bs =>
      simp only [List.map_cons, List.cons.injEq, Prod.mk.injEq] at h1 h2
      obtain ⟨⟨hf, hl⟩, ht1⟩ := h1
      obtain ⟨hm, ht2⟩ := h2
      have hab : a = b := by
        obtain ⟨af, al, am⟩ := a
        obtain ⟨bf, bl, bm⟩ := b
        simp only at hf hl hm
        rw [hf, hl, hm]
      rw [hab, ih ht1 ht2]

/-- C9: with the same root, the same entries and the same parse outcomes, two
runs produce the same messages and the same CSV rows outside the
`last_modified` column (the ninth); when the modification times also agree,
the two runs' entire outputs — CSV text included — are identical. -/
theorem C9_rerun_identical_up_to_mtime (t1 t2 : DirTree) (sep : String)
    (h : SameContents t1 t2) :
    (Except.map (fun o => (o.messages, o.rows.map fun r => r.take 8))
        (generate_index t1 sep) =
      Except.map (fun o => (o.messages, o.rows.map fun r => r.take 8))
        (generate_index t2 sep)) ∧
    (t1.entries.map (fun en => en.snd.mtime) = t2.entries.map
        (fun en => en.snd.mtime) →
      generate_index t1 sep = generate_index t2 sep) := by
  constructor
  · unfold generate_index
    simp only []
    rw [find_eq_of_sameContents h]
    rcases collect_rel_of_sameContents h sep (find_json_files t2) with
      ⟨e, he1, he2⟩ | ⟨r1, r2, w, ho1, ho2, hf⟩
    · rw [he1, he2]
    · rw [ho1, ho2]
      simp only [Except.map]
      have hrows := rows_take8_eq hf
      simp only [List.map_cons] at hrows ⊢
      rw [hrows]
  · intro hm
    have ht : t1 = t2 := by
      have he : t1 = DirTree.mk t1.rootParts t1.entries := rfl
      rw [he, h.1, entries_ext h.2 hm]
    rw [ht]

theorem C9_witness :
    Except.map (fun o => (o.messages, o.rows.map fun r => r.take 8))
        (generate_index W9treeA "/") =
      Except.map (fun o => (o.messages, o.rows.map fun r => r.take 8))
        (generate_index W9treeB "/") :=
  (C9_rerun_identical_up_to_mtime W9treeA W9treeB "/" ⟨rfl, rfl⟩).1
